import Mathlib

/-!
Verification of the XXMITools export core (`src/migoto/export_ops.py`,
`src/migoto/exporter.py`) against its natural-language specification.

The Python source is shallowly embedded: quantized buffer contents are
modelled with exact integers, pre-quantization floating values with `ℚ`,
and the outline-normal computations (which normalize with a square root)
with `ℝ`.  Machine-float rounding of intermediate arithmetic is not
modelled; `numpy.round` half-to-even and integer-cast wraparound are
modelled exactly.
-/

/-- `numpy.round` semantics on an exact rational: round to the nearest
integer, ties to the even neighbour. -/
def roundHalfEven (q : ℚ) : ℤ :=
  if q - (⌊q⌋ : ℚ) < 1/2 then ⌊q⌋
  else if 1/2 < q - (⌊q⌋ : ℚ) then ⌊q⌋ + 1
  else if Even ⌊q⌋ then ⌊q⌋ else ⌊q⌋ + 1

/-- Rounding half away from zero, the convention the spec names for the
UNorm/SNorm codec (spec §3 NumericFormat). -/
def roundHalfAway (q : ℚ) : ℤ :=
  if q < 0 then -⌊-q + 1/2⌋ else ⌊q + 1/2⌋

/-- Wraparound of an integer into the unsigned `bits`-bit range, the effect
of `numpy.ndarray.astype` to an unsigned integer dtype. -/
def wrapUnsigned (m k : ℤ) : ℤ := k % m

/-- Wraparound of an integer into the signed range `[-half, half)`, the
effect of `numpy.ndarray.astype` to a signed integer dtype. -/
def wrapSigned (half k : ℤ) : ℤ := (k + half) % (2 * half) - half

/-- `result = numpy.round(result * 255).astype(numpy.uint8)`
(export_ops.py line 1369, `unorm8_pattern` branch). -/
def unorm8_encode (x : ℚ) : ℤ := wrapUnsigned 256 (roundHalfEven (x * 255))

/-- `result = numpy.round(result * 65535).astype(numpy.uint16)`
(export_ops.py line 1367, `unorm16_pattern` branch). -/
def unorm16_encode (x : ℚ) : ℤ := wrapUnsigned 65536 (roundHalfEven (x * 65535))

/-- `result = numpy.round(result * 127).astype(numpy.int8)`
(export_ops.py line 1373, `snorm8_pattern` branch). -/
def snorm8_encode (x : ℚ) : ℤ := wrapSigned 128 (roundHalfEven (x * 127))

/-- `result = numpy.round(result * 32767).astype(numpy.int16)`
(export_ops.py line 1371, `snorm16_pattern` branch). -/
def snorm16_encode (x : ℚ) : ℤ := wrapSigned 32768 (roundHalfEven (x * 32767))

/-- Clamp an integer into `[lo, hi]`. -/
def clampInt (lo hi k : ℤ) : ℤ := max lo (min hi k)

/-- Modelled from the spec: "`UNorm8 = round(x*255)`, clamped", with the
round-half-away-from-zero convention the spec names for the codec.  This is
the claimed behaviour, for comparison with `unorm8_encode` from the source. -/
def unorm8_claimed (x : ℚ) : ℤ := clampInt 0 255 (roundHalfAway (x * 255))

/-- Modelled from the spec: "`SNorm16 = round(x*32767)`, clamped". -/
def snorm16_claimed (x : ℚ) : ℤ := clampInt (-32768) 32767 (roundHalfAway (x * 32767))

/-- `normal_export_translation` (export_ops.py lines 61-80): the scalar
translation applied to NORMAL/TANGENT components in the
`export_3dmigoto` path.  `unorm` is whether the element's DXGI type is
UNORM8/UNORM16, `flip` the flip-normal flag. -/
def normal_export_translation (unorm flip : Bool) (x : ℚ) : ℚ :=
  if unorm then
    if flip then -x / 2 + 1/2 else x / 2 + 1/2
  else
    if flip then -x else x

/-- The NORMAL/TANGENT pre-quantization value computed by
`blender_to_migoto_vertices` (export_ops.py lines 1205-1210 and 1227-1232):
`if FlipNormal: result = -result` followed by
`if elem.Format.upper().endswith("_UNORM"): result = result * 2 - 1`. -/
def migoto_normal_prequant (unorm flip : Bool) (x : ℚ) : ℚ :=
  let r := if flip then -x else x
  if unorm then r * 2 - 1 else r

/-! ## `mesh_to_bin` index/vertex buffer generation (export_ops.py 1384-1467)

A vertex record produced by `blender_to_migoto_vertices` is modelled as the
already-quantized field contents; `tobytes()` equality on a fixed dtype is
byte equality of these contents, modelled as decidable equality on the
record.  `FlipMesh` negates the x components of POSITION, NORMAL and
TANGENT (lines 1177, 1193, 1238). -/

/-- One assembled per-loop record (quantized contents). -/
structure MVert where
  posX : ℤ
  posY : ℤ
  posZ : ℤ
  nrmX : ℤ
  rest : List ℤ
deriving DecidableEq

instance : Inhabited MVert := ⟨⟨0, 0, 0, 0, []⟩⟩

/-- One mesh loop (face corner); its position in the loop list is its
`loop.index`, and `vertex_index` is the Blender vertex it references. -/
structure MLoop where
  vertex_index : ℕ
deriving DecidableEq

/-- The per-loop record assembly of `blender_to_migoto_vertices`: with
`3DMigoto:FlipMesh` set, the x components are negated (`result[idxs, 0] *=
-(2 * main_obj.get("3DMigoto:FlipMesh", False) - 1)`). -/
def assembleVert (flipMesh : Bool) (v : MVert) : MVert :=
  if flipMesh then { v with posX := -v.posX, nrmX := -v.nrmX } else v

/-- `migoto_verts`: one record per loop, in loop order. -/
def migotoVerts (flipMesh : Bool) (src : List MVert) : List MVert :=
  src.map (assembleVert flipMesh)

/-- `collections.OrderedDict().setdefault(key, len(d))`: return the value of
an existing key, else append the key with value `len(d)`. -/
def odSetdefault (m : List (MVert × ℕ)) (k : MVert) : List (MVert × ℕ) × ℕ :=
  match m.find? (fun p => decide (p.1 = k)) with
  | some p => (m, p.2)
  | none => (m ++ [(k, m.length)], m.length)

/-- One step of the `ib_list` comprehension (lines 1436-1441). -/
def dedupStep (s : List (MVert × ℕ) × List ℕ) (k : MVert) : List (MVert × ℕ) × List ℕ :=
  let s2 := odSetdefault s.1 k
  (s2.1, s.2 ++ [s2.2])

/-- Running the `indexed_vertices` OrderedDict over the stream of per-corner
lookup keys, producing the dict and the flat index list. -/
def dedupRun (keys : List MVert) : List (MVert × ℕ) × List ℕ :=
  keys.foldl dedupStep ([], [])

/-- The flat `ib_list` (one index per loop). -/
def ibListOf (keys : List MVert) : List ℕ := (dedupRun keys).2

/-- The vertex buffer: the dict's keys in insertion order (lines 1455-1459). -/
def vbOf (keys : List MVert) : List MVert := (dedupRun keys).1.map Prod.fst

/-- The stream of dedup keys of `mesh_to_bin`: for each loop `l` the code
looks up `migoto_verts[l.vertex_index].tobytes()` — the record at list
position `l.vertex_index`, not the loop's own record. -/
def meshToBinKeys (flipMesh : Bool) (loops : List MLoop) (src : List MVert) : List MVert :=
  loops.map (fun l => (migotoVerts flipMesh src).getD l.vertex_index default)

/-- `ib.fromlist(ib_list)` groups the flat index list into triples, one per
triangle (the index buffer layout of the spec's §6: 3 indices per face). -/
def toTriples : List ℕ → List (List ℕ)
  | a :: b :: c :: rest => [a, b, c] :: toTriples rest
  | _ => []

/-- `mesh_to_bin`'s buffer generation: dedup the key stream, group the index
list into faces, and — when `FlipMesh XOR FlipWinding` — reverse each face
triple (`numpy.fliplr`) after deduplication (lines 1434-1459). -/
def meshToBin (flipMesh flipWinding : Bool) (loops : List MLoop) (src : List MVert) :
    List (List ℕ) × List MVert :=
  let keys := meshToBinKeys flipMesh loops src
  let ib := toTriples (ibListOf keys)
  ((if xor flipMesh flipWinding then ib.map List.reverse else ib), vbOf keys)

/-- Two triangles sharing an edge: loops reference vertices 0,1,2,2,1,3. -/
def loops6 : List MLoop := [⟨0⟩, ⟨1⟩, ⟨2⟩, ⟨2⟩, ⟨1⟩, ⟨3⟩]

/-- Six pairwise distinct per-loop records (per-corner normals differ, so
all six corners assemble different byte records). -/
def src6 : List MVert :=
  [⟨0, 0, 0, 10, []⟩, ⟨1, 0, 0, 11, []⟩, ⟨2, 0, 0, 12, []⟩,
   ⟨3, 0, 0, 13, []⟩, ⟨4, 0, 0, 14, []⟩, ⟨5, 0, 0, 15, []⟩]

/-- One triangle whose corner records have nonzero x positions. -/
def loops3 : List MLoop := [⟨0⟩, ⟨1⟩, ⟨2⟩]

def src3 : List MVert := [⟨1, 0, 0, 0, []⟩, ⟨2, 0, 0, 0, []⟩, ⟨3, 0, 0, 0, []⟩]

/-! ## Element loop of `blender_to_migoto_vertices`: weight requirement -/

/-- Element semantics relevant to the element dispatch. -/
inductive MigotoSemantic where
  | position
  | normal
  | tangent
  | blendweight
  | blendindices
  | color
  | texcoord
  | other
deriving DecidableEq

/-- One layout element, with the two skip conditions of the loop
(`elem.InputSlotClass != "per-vertex" or elem.reused_offset`, line 1166). -/
structure FmtElem where
  semantic : MigotoSemantic
  perVertex : Bool
  reusedOffset : Bool
deriving DecidableEq

/-- Whether the element is a blend channel (BLENDWEIGHT / BLENDINDICES). -/
def FmtElem.isBlend (e : FmtElem) : Bool :=
  e.semantic == .blendweight || e.semantic == .blendindices

/-- The Fatal message raised at export_ops.py lines 1243-1245 / 1280-1282. -/
def missingWeightsMsg : String :=
  "The export format is expecting weights and the model has none. Aborting."

/-- The element loop of `blender_to_migoto_vertices`: skip elements that are
not per-vertex or reuse an offset; a BLENDWEIGHT / BLENDINDICES element
raises Fatal when the mesh carries no bone weights (`weights is None`,
lines 1239-1245 and 1277-1283); other elements are processed from their own
attribute sources.  `acc` is the list of elements processed so far. -/
def assembleElems (weights : Option (List (ℕ × ℤ))) :
    List FmtElem → List FmtElem → Except String (List FmtElem)
  | acc, [] => .ok acc
  | acc, e :: rest =>
    if !e.perVertex || e.reusedOffset then assembleElems weights acc rest
    else if e.isBlend && weights.isNone then .error missingWeightsMsg
    else assembleElems weights (acc ++ [e]) rest

/-- `blender_to_migoto_vertices` control flow: a mesh without polygons
returns the zeroed buffer immediately (lines 1134-1136), otherwise the
element loop runs. -/
def blenderToMigotoVertices (layout : List FmtElem) (hasPolygons : Bool)
    (weights : Option (List (ℕ × ℤ))) : Except String (List FmtElem) :=
  if !hasPolygons then .ok [] else assembleElems weights [] layout

/-! ## Outline optimization (`optimized_outline_generation`, export_ops.py 253-484)

The floating computations are modelled over `ℝ`. -/

open scoped Classical

/-- A 3-component vector. -/
abbrev Vec3 : Type := ℝ × ℝ × ℝ

def addV (a b : Vec3) : Vec3 := (a.1 + b.1, a.2.1 + b.2.1, a.2.2 + b.2.2)

def subV (a b : Vec3) : Vec3 := (a.1 - b.1, a.2.1 - b.2.1, a.2.2 - b.2.2)

def smulV (c : ℝ) (a : Vec3) : Vec3 := (c * a.1, c * a.2.1, c * a.2.2)

def sumV (l : List Vec3) : Vec3 := l.foldr addV (0, 0, 0)

def dotV (a b : Vec3) : ℝ := a.1 * b.1 + a.2.1 * b.2.1 + a.2.2 * b.2.2

/-- `numpy.linalg.norm` of a 3-vector. -/
noncomputable def norm3 (v : Vec3) : ℝ := Real.sqrt (v.1 ^ 2 + v.2.1 ^ 2 + v.2.2 ^ 2)

/-- `unit_vector` (export_ops.py lines 83-85): divide by the norm where the
norm is nonzero, with a zero default elsewhere
(`numpy.divide(vector, a, out=numpy.zeros_like(vector), where=a != 0)`). -/
noncomputable def unitVector (v : Vec3) : Vec3 :=
  if norm3 v = 0 then (0, 0, 0)
  else (v.1 / norm3 v, v.2.1 / norm3 v, v.2.2 / norm3 v)

/-- `antiparallel_search` (lines 88-90): some pair of connected face normals
has a dot product strictly between `-1.000001` and `-0.999999`. -/
def antiparallelNear (ns : List Vec3) : Prop :=
  ∃ a ∈ ns, ∃ b ∈ ns,
    -(1000001 / 1000000 : ℝ) < dotV a b ∧ dotV a b < -(999999 / 1000000 : ℝ)

/-- One mesh polygon as used by the outline calculation: its vertex list
(`Face_Verts`) and its face normal (`Face_Normals`). -/
structure OFace where
  verts : List ℕ
  normal : Vec3

/-- The group member `vert0` whose fan edges are measured for the optional
angle weight (lines 443-448).  The Python loop `for vert0 in vert0p`
overwrites the matrix rows each iteration, so the final iterate of the set
`set(vlist) & vertex_group` wins; Python set iteration order is
unspecified, modelled here as the last group member in face-vertex order. -/
def anglePick (members : List ℕ) (f : OFace) : ℕ :=
  ((f.verts.filter (fun v => decide (v ∈ members))).getLast?).getD 0

/-- The angle subtended at `vert0` on face `f` (lines 458-469):
`arccos(clip(dot(unit(vn0 - v0), unit(vn1 - v0)), -1, 1))`. -/
noncomputable def faceAngle (pos : ℕ → Vec3) (members : List ℕ) (f : OFace) : ℝ :=
  let v0 := pos (anglePick members f)
  let vn := (f.verts.filter (fun v => v != anglePick members f)).map pos
  Real.arccos (max (-1) (min 1
    (dotV (unitVector (subV (vn.getD 0 (0, 0, 0)) v0))
          (unitVector (subV (vn.getD 1 (0, 0, 0)) v0)))))

/-- The row the face contributes to `ConnectedWeightedNormal` (lines
438-470).  The row is assigned the raw face normal; the subsequent
`numpy.multiply(ConnectedWeightedNormal[i], 0.5 ** (1 - influence_restriction))`
(lines 451-455) returns a fresh array that is never assigned, so it leaves
the row unchanged.  With angle weighting the row is then scaled by the
subtended angle (line 470). -/
noncomputable def faceContribution (angleWeighted : Bool) (pos : ℕ → Vec3)
    (members : List ℕ) (f : OFace) : Vec3 :=
  if angleWeighted then smulV (faceAngle pos members f) f.normal else f.normal

/-- `influence_restriction = len(vert0p)` (line 451): the number of
distinct face corners belonging to the position group. -/
def groupFaceCount (members : List ℕ) (f : OFace) : ℕ :=
  ((f.verts.dedup).filter (fun v => decide (v ∈ members))).length

/-- Modelled from the spec: a face touching `n > 1` members of the position
group contributes its normal scaled by `0.5^(1-n)` — the discount the
source computes but discards. -/
noncomputable def specBase (members : List ℕ) (f : OFace) : Vec3 :=
  if 1 < groupFaceCount members f then
    smulV ((2⁻¹ : ℝ) ^ ((1 : ℤ) - (groupFaceCount members f : ℤ))) f.normal
  else f.normal

/-- Modelled from the spec: the face contribution with the `0.5^(1-n)`
discount applied before any optional angle weighting. -/
noncomputable def faceContributionSpec (angleWeighted : Bool) (pos : ℕ → Vec3)
    (members : List ℕ) (f : OFace) : Vec3 :=
  if angleWeighted then smulV (faceAngle pos members f) (specBase members f)
  else specBase members f

/-- One `Same_Vertex` group as iterated by the calculation loop (lines
415-480): the dict key, the group members, and the faces connected to any
member (`Connected_Faces_bySameVertex[key]`). -/
structure OGroup where
  key : ℕ
  members : List ℕ
  faces : List OFace

/-- The outline flags and per-vertex positions consumed by the calculation
loop. -/
structure OutlineParams where
  angleWeighted : Bool
  overlappingFaces : Bool
  calculateAllFaces : Bool
  repositionLocal : List ℕ
  pos : ℕ → Vec3

/-- The mutable state of the calculation loop: the `export_outline` dict (an
insertion-ordered map) and the `IteratedValues` set. -/
structure OutlineState where
  export_outline : List (ℕ × Vec3)
  iterated : List ℕ

/-- `dict.setdefault(k, v)` on the insertion-ordered `export_outline`. -/
def outlineSetdefault (m : List (ℕ × Vec3)) (k : ℕ) (v : Vec3) : List (ℕ × Vec3) :=
  if (m.find? (fun p => p.1 == k)).isSome then m else m ++ [(k, v)]

/-- `wSum = unit_vector(numpy.sum(ConnectedWeightedNormal, axis=0))`
(line 472). -/
noncomputable def groupWSum (p : OutlineParams) (g : OGroup) : Vec3 :=
  unitVector (sumV (g.faces.map (faceContribution p.angleWeighted p.pos g.members)))

/-- The body of the calculation loop (lines 415-480) for one group: skip
iterated keys, skip singleton groups unless `calculate_all_faces`, skip the
group entirely when `ignore_overlapping_faces` finds antiparallel connected
normals, otherwise normalize the accumulated weighted normal; a zero result
adds nothing; a `RepositionLocal` key receives only its own entry, while a
propagated group writes the shared direction to every member and marks them
iterated. -/
noncomputable def processGroup (p : OutlineParams) (st : OutlineState) (g : OGroup) :
    OutlineState :=
  if g.key ∈ st.iterated then st
  else if !p.calculateAllFaces && (g.members.length == 1) then st
  else if p.overlappingFaces = true ∧ antiparallelNear (g.faces.map OFace.normal) then st
  else if groupWSum p g ≠ (0, 0, 0) then
    if p.repositionLocal ≠ [] ∧ g.key ∈ p.repositionLocal then
      { st with export_outline := outlineSetdefault st.export_outline g.key (groupWSum p g) }
    else
      { export_outline :=
          g.members.foldl (fun m x => outlineSetdefault m x (groupWSum p g)) st.export_outline,
        iterated := st.iterated ++ g.members }
  else st

/-- `optimized_outline_generation`'s calculation phase: fold the loop body
over the groups and return the `export_outline` map. -/
noncomputable def optimizedOutlineGeneration (p : OutlineParams) (groups : List OGroup) :
    List (ℕ × Vec3) :=
  (groups.foldl (processGroup p) ⟨[], []⟩).export_outline

/-! ## Edge detection merge (`optimized_outline_generation`, lines 345-398) -/

/-- The `Same_Vertex` map and `RepositionLocal` set mutated by the edge
detection phase. -/
structure EdgeDetectState where
  sameVertex : ℕ → List ℕ
  repositionLocal : List ℕ

/-- The "truly lies within the box" test of lines 390-394:
`p1n >= o1 >= p1nn and p2n >= o2 >= p2nn and p3n >= o3 >= p3nn`. -/
def inBox (ned : ℚ) (p o : ℚ × ℚ × ℚ) : Prop :=
  p.1 + ned ≥ o.1 ∧ o.1 ≥ p.1 - ned ∧
  p.2.1 + ned ≥ o.2.1 ∧ o.2.1 ≥ p.2.1 - ned ∧
  p.2.2 + ned ≥ o.2.2 ∧ o.2.2 ≥ p.2.2 - ned

instance (ned : ℚ) (p o : ℚ × ℚ × ℚ) : Decidable (inBox ned p o) := by
  unfold inBox
  infer_instance

/-- The update an open-seam group performs after the tolerance-box search
(lines 383-398), given the search result `closestGroup`: when the search
found anything other than exactly one vertex, every group member is added
to `RepositionLocal` and every found vertex outside the group that truly
lies in the box around the group's first member is appended to every
member's `Same_Vertex` set; when it found exactly one vertex, nothing
changes. -/
def edgeSearchUpdate (ned : ℚ) (pos : ℕ → ℚ × ℚ × ℚ)
    (vertexGroup closestGroup : List ℕ) (st : EdgeDetectState) : EdgeDetectState :=
  if closestGroup.length ≠ 1 then
    let base := pos (vertexGroup.headD 0)
    let toMerge := closestGroup.filter
      (fun v => decide (v ∉ vertexGroup) && decide (inBox ned base (pos v)))
    { sameVertex := fun x =>
        if x ∈ vertexGroup then st.sameVertex x ++ toMerge else st.sameVertex x,
      repositionLocal := st.repositionLocal ++ vertexGroup }
  else st

/-! ## `ModExporter.optimize_outlines` (exporter.py, lines 412-434) -/

/-- `numpy.round` ties-to-even on a real. -/
noncomputable def roundHalfEvenR (x : ℝ) : ℤ :=
  if x - (⌊x⌋ : ℝ) < 1/2 then ⌊x⌋
  else if 1/2 < x - (⌊x⌋ : ℝ) then ⌊x⌋ + 1
  else if Even ⌊x⌋ then ⌊x⌋ else ⌊x⌋ + 1

/-- `numpy.round(_, 3)`: round to 3 decimals. -/
noncomputable def round3R (x : ℝ) : ℝ := (roundHalfEvenR (x * 1000) : ℝ) / 1000

noncomputable def roundVec3 (v : Vec3) : Vec3 := (round3R v.1, round3R v.2.1, round3R v.2.2)

/-- One record of the merged Position buffer handed to `optimize_outlines`:
its POSITION, NORMAL and TANGENT fields (the first three components of
NORMAL/TANGENT are the ones read/written; their fourth components and all
other fields are carried along). -/
structure PosRecord where
  position : Vec3
  normal : Vec3
  normalW : ℝ
  tangent : Vec3
  tangentW : ℝ
  rest : List ℝ

noncomputable instance : Inhabited PosRecord :=
  ⟨⟨(0, 0, 0), (0, 0, 0), 0, (0, 0, 0), 0, []⟩⟩

/-- The grouping key: `numpy.round(position_buffer["POSITION"], 3)`. -/
noncomputable def posKey (r : PosRecord) : Vec3 := roundVec3 r.position

/-- The magnitude-weighted average of the group's normals (lines 426-430). -/
noncomputable def weightedAvgNormal (ns : List Vec3) : Vec3 :=
  let total := (ns.map norm3).sum
  sumV (ns.map (fun v => smulV (norm3 v / total) v))

/-- The final TANGENT xyz of one record: the bulk assignment
`TANGENT[:, 0:3] = NORMAL[:, 0:3]` (line 422) overwritten, for rows whose
rounded position is shared by more than one record, by the normalized
weighted average normal of the group — unless that average is the zero
vector, in which case the row keeps its normal (lines 423-434). -/
noncomputable def optimizeOutlinesTangent (buf : List PosRecord) (r : PosRecord) : Vec3 :=
  let group := buf.filter (fun s => decide (posKey s = posKey r))
  if group.length ≤ 1 then r.normal
  else
    let avg := weightedAvgNormal (group.map PosRecord.normal)
    if avg = (0, 0, 0) then r.normal
    else smulV (norm3 avg)⁻¹ avg

/-- `ModExporter.optimize_outlines`: disabled or empty buffers are returned
untouched; otherwise only the first three TANGENT components of each record
are rewritten. -/
noncomputable def optimizeOutlines (enabled : Bool) (buf : List PosRecord) :
    List PosRecord :=
  if !enabled then buf
  else if buf.length = 0 then buf
  else buf.map (fun r => { r with tangent := optimizeOutlinesTangent buf r })

/-- Concrete outline parameters for witnesses: all flags off, all positions
at the origin. -/
noncomputable def outlineParamsW : OutlineParams :=
  ⟨false, false, false, [], fun _ => (0, 0, 0)⟩

/-- A single group: key 0, members 0 and 1, one connected face with normal
`(0,0,1)`. -/
noncomputable def oGroupW : OGroup := ⟨0, [0, 1], [⟨[0, 1, 2], (0, 0, 1)⟩]⟩

/-- Positions for the edge-detection witnesses: vertex 1 at `(1/2, 0, 0)`,
everything else at the origin. -/
def posW7 : ℕ → ℚ × ℚ × ℚ := fun n => if n = 1 then (1/2, 0, 0) else (0, 0, 0)

/-- An empty edge-detection state. -/
def edgeStateW : EdgeDetectState := ⟨fun _ => [], []⟩

/-- A concrete position-buffer record for the frame-effect witness. -/
noncomputable def posRecordW : PosRecord := ⟨(1, 2, 3), (0, 0, 1), 0, (5, 6, 7), 1, [9]⟩

theorem roundHalfEven_intCast (n : ℤ) : roundHalfEven (n : ℚ) = n := by
  unfold roundHalfEven
  rw [Int.floor_intCast]
  norm_num

theorem roundHalfEven_ge {a : ℤ} {q : ℚ} (h : (a : ℚ) ≤ q) : a ≤ roundHalfEven q := by
  have hf : a ≤ ⌊q⌋ := Int.le_floor.mpr h
  unfold roundHalfEven
  split
  · exact hf
  · split
    · omega
    · split <;> omega

theorem roundHalfEven_le {b : ℤ} {q : ℚ} (h : q ≤ (b : ℚ)) : roundHalfEven q ≤ b := by
  have hfb : ⌊q⌋ ≤ b := by
    have h2 := Int.floor_le_floor h
    rwa [Int.floor_intCast] at h2
  have hcases : q - (⌊q⌋ : ℚ) < 1/2 ∨ ⌊q⌋ < b := by
    rcases lt_or_eq_of_le hfb with hlt | heq
    · exact Or.inr hlt
    · left
      have hq0 : q - (⌊q⌋ : ℚ) ≤ 0 := by
        rw [heq]
        linarith
      linarith
  unfold roundHalfEven
  split
  · exact hfb
  · rename_i hr
    have hb : ⌊q⌋ < b := by
      rcases hcases with hc | hc
      · exact absurd hc hr
      · exact hc
    split
    · omega
    · split <;> omega

/-- Claim C3, counterexample: the claimed codec clamps `round(x*255)` into
the format's integer range, but the source (`numpy.round(...).astype(...)`,
export_ops.py lines 1365-1373) wraps instead of clamping: at `x = 2` the
source encoder yields `510 mod 256 = 254` while the claimed clamped encoder
yields `255`. -/
theorem c3_unorm8_encode_counterexample :
    unorm8_encode 2 = 254 ∧ unorm8_claimed 2 = 255 ∧
      unorm8_encode 2 ≠ unorm8_claimed 2 := by
  refine ⟨?_, ?_, ?_⟩ <;>
    norm_num [unorm8_encode, unorm8_claimed, wrapUnsigned, clampInt,
      roundHalfEven, roundHalfAway]

/-- Claim C3 (amended): the encoded integer equals round-half-to-even of
`x * max`, converted with integer wraparound rather than clamping; for `x`
inside the normalized range no wraparound occurs, and the mapping is
bit-exact invertible on the lattice points `n / max`. -/
theorem c3_encode_amended :
    (∀ x : ℚ, 0 ≤ x → x ≤ 1 →
        unorm8_encode x = roundHalfEven (x * 255) ∧
        0 ≤ roundHalfEven (x * 255) ∧ roundHalfEven (x * 255) ≤ 255) ∧
    (∀ n : ℤ, 0 ≤ n → n ≤ 255 → unorm8_encode ((n : ℚ) / 255) = n) ∧
    (∀ x : ℚ, -1 ≤ x → x ≤ 1 →
        snorm16_encode x = roundHalfEven (x * 32767) ∧
        -32767 ≤ roundHalfEven (x * 32767) ∧ roundHalfEven (x * 32767) ≤ 32767) ∧
    (∀ n : ℤ, -32767 ≤ n → n ≤ 32767 → snorm16_encode ((n : ℚ) / 32767) = n) := by
  have hu : ∀ x : ℚ, 0 ≤ x → x ≤ 1 →
      0 ≤ roundHalfEven (x * 255) ∧ roundHalfEven (x * 255) ≤ 255 := by
    intro x h0 h1
    constructor
    · exact roundHalfEven_ge (by push_cast; nlinarith)
    · exact roundHalfEven_le (by push_cast; nlinarith)
  have hs : ∀ x : ℚ, -1 ≤ x → x ≤ 1 →
      -32767 ≤ roundHalfEven (x * 32767) ∧ roundHalfEven (x * 32767) ≤ 32767 := by
    intro x h0 h1
    constructor
    · exact roundHalfEven_ge (by push_cast; nlinarith)
    · exact roundHalfEven_le (by push_cast; nlinarith)
  refine ⟨?_, ?_, ?_, ?_⟩
  · intro x h0 h1
    obtain ⟨hl, hr⟩ := hu x h0 h1
    refine ⟨?_, hl, hr⟩
    unfold unorm8_encode wrapUnsigned
    exact Int.emod_eq_of_lt hl (by omega)
  · intro n h0 h1
    have h255 : ((n : ℚ) / 255) * 255 = (n : ℚ) := by
      field_simp
    unfold unorm8_encode wrapUnsigned
    rw [h255, roundHalfEven_intCast]
    exact Int.emod_eq_of_lt h0 (by omega)
  · intro x h0 h1
    obtain ⟨hl, hr⟩ := hs x h0 h1
    refine ⟨?_, hl, hr⟩
    unfold snorm16_encode wrapSigned
    have : (roundHalfEven (x * 32767) + 32768) % (2 * 32768)
        = roundHalfEven (x * 32767) + 32768 :=
      Int.emod_eq_of_lt (by omega) (by omega)
    omega
  · intro n h0 h1
    have h32767 : ((n : ℚ) / 32767) * 32767 = (n : ℚ) := by
      field_simp
    unfold snorm16_encode wrapSigned
    rw [h32767, roundHalfEven_intCast]
    have : (n + 32768) % (2 * 32768) = n + 32768 :=
      Int.emod_eq_of_lt (by omega) (by omega)
    omega

/-- Witness for `c3_encode_amended` at concrete lattice points. -/
theorem c3_encode_amended_witness :
    unorm8_encode (((128 : ℤ) : ℚ) / 255) = 128 ∧
      snorm16_encode (((-32767 : ℤ) : ℚ) / 32767) = -32767 :=
  ⟨c3_encode_amended.2.1 128 (by norm_num) (by norm_num),
   c3_encode_amended.2.2.2 (-32767) (by norm_num) (by norm_num)⟩

/-- Claim C4, code-bug evaluation: for a UNorm target the value stored
before quantization should be `x/2 + 0.5` (as `normal_export_translation`
computes and as the claim states), but `blender_to_migoto_vertices`
(export_ops.py lines 1205-1210, 1227-1232) computes `x*2 - 1` instead: at a
NORMAL component `x = 0` with the flip flag off it stores `-1`, not `0.5`.
For non-UNorm formats the two agree (`x`, or `-x` when flipped). -/
theorem c4_unorm_prequant_eval :
    migoto_normal_prequant true false 0 = -1 ∧
    normal_export_translation true false 0 = 1/2 ∧
    migoto_normal_prequant true false 0 ≠ normal_export_translation true false 0 ∧
    (∀ (flip : Bool) (x : ℚ),
        migoto_normal_prequant false flip x = normal_export_translation false flip x) := by
  refine ⟨by norm_num [migoto_normal_prequant],
    by norm_num [normal_export_translation],
    by norm_num [migoto_normal_prequant, normal_export_translation], ?_⟩
  intro flip x
  cases flip <;> simp [migoto_normal_prequant, normal_export_translation]

/-- Claim C1, code-bug evaluation: `mesh_to_bin` keys its dedup on
`migoto_verts[l.vertex_index]` — the record assembled for the loop at list
position `l.vertex_index` — instead of the corner's own record
`migoto_verts[l.index]`.  On two triangles with corners referencing
vertices 0,1,2,2,1,3 and six pairwise distinct corner records, the index
emitted for corner 3 refers to a vertex-buffer record equal to corner 2's
assembled record and different from corner 3's own assembled record,
refuting the claim that every emitted index refers to a record
byte-identical to the corresponding corner's. -/
theorem c1_dedup_misindexed_eval :
    (vbOf (meshToBinKeys false loops6 src6)).getD
        ((ibListOf (meshToBinKeys false loops6 src6)).getD 3 0) default
      = (migotoVerts false src6).getD 2 default ∧
    (vbOf (meshToBinKeys false loops6 src6)).getD
        ((ibListOf (meshToBinKeys false loops6 src6)).getD 3 0) default
      ≠ (migotoVerts false src6).getD 3 default := by
  decide

/-- Claim C2, counterexample: with `FlipMesh = true, FlipWinding = false`
(so FlipMesh XOR FlipWinding is true) the emitted face triples are indeed
the reversed triples of the both-false run, but the vertex buffer is NOT
identical to the both-false run: FlipMesh also negates the x components of
the assembled records, so every vertex record differs. -/
theorem c2_flipmesh_vb_counterexample :
    xor true false = true ∧
    (meshToBin true false loops3 src3).1
      = ((meshToBin false false loops3 src3).1).map List.reverse ∧
    (meshToBin true false loops3 src3).2 ≠ (meshToBin false false loops3 src3).2 := by
  decide

/-- Claim C2 (amended): when FlipMesh XOR FlipWinding is true, the emitted
face triples are exactly the per-face reversals of the run with the same
FlipMesh flag and the winding reversal off (same assembled records), and
the vertex buffer and insertion order are identical to that run — i.e. the
reversal happens after deduplication/insertion, never before it. -/
theorem c2_winding_flip_after_dedup (fm fw : Bool) (loops : List MLoop)
    (src : List MVert) (h : xor fm fw = true) :
    (meshToBin fm fw loops src).1 = ((meshToBin fm fm loops src).1).map List.reverse ∧
    (meshToBin fm fw loops src).2 = (meshToBin fm fm loops src).2 := by
  cases fm <;> cases fw <;> simp_all [meshToBin]

/-- Witness for `c2_winding_flip_after_dedup` on a concrete triangle. -/
theorem c2_winding_flip_after_dedup_witness :
    (meshToBin false true loops3 src3).1
      = ((meshToBin false false loops3 src3).1).map List.reverse ∧
    (meshToBin false true loops3 src3).2 = (meshToBin false false loops3 src3).2 :=
  c2_winding_flip_after_dedup false true loops3 src3 (by decide)

theorem assembleElems_error_of_blend (weights : Option (List (ℕ × ℤ)))
    (hw : weights = none) :
    ∀ (layout acc : List FmtElem) (e : FmtElem), e ∈ layout →
      e.isBlend = true → e.perVertex = true → e.reusedOffset = false →
      assembleElems weights acc layout = .error missingWeightsMsg := by
  subst hw
  intro layout
  induction layout with
  | nil =>
    intro acc e h
    simp at h
  | cons hd tl ih =>
    intro acc e hmem hb hp hr
    rcases List.mem_cons.mp hmem with rfl | hmem2
    · simp [assembleElems, hp, hr, hb]
    · by_cases hskip : (!hd.perVertex || hd.reusedOffset) = true
      · have hstep : assembleElems none acc (hd :: tl) = assembleElems none acc tl := by
          simp [assembleElems, hskip]
        rw [hstep]
        exact ih acc e hmem2 hb hp hr
      · by_cases hbl : hd.isBlend = true
        · simp [assembleElems, hskip, hbl]
        · have hstep : assembleElems none acc (hd :: tl)
              = assembleElems none (acc ++ [hd]) tl := by
            simp [assembleElems, hskip, hbl]
          rw [hstep]
          exact ih (acc ++ [hd]) e hmem2 hb hp hr

theorem assembleElems_weights_irrelevant (w : List (ℕ × ℤ)) :
    ∀ (layout acc : List FmtElem), (∀ e ∈ layout, e.isBlend = false) →
      assembleElems none acc layout = assembleElems (some w) acc layout := by
  intro layout
  induction layout with
  | nil =>
    intro acc _
    simp [assembleElems]
  | cons hd tl ih =>
    intro acc hnb
    have hhd : hd.isBlend = false := hnb hd (by simp)
    have htl : ∀ e ∈ tl, e.isBlend = false := fun e he => hnb e (by simp [he])
    by_cases hskip : (!hd.perVertex || hd.reusedOffset) = true
    · simp only [assembleElems, hskip, if_true]
      exact ih acc htl
    · simp only [assembleElems, hskip, if_false, hhd, Bool.false_and,
        Option.isNone_none, Option.isNone_some, Bool.and_false]
      simp only [Bool.false_eq_true, if_false]
      exact ih (acc ++ [hd]) htl

/-- Claim C8: a layout declaring a (per-vertex, non-aliased) BLENDWEIGHT or
BLENDINDICES element makes vertex assembly fail fatally when the mesh has
polygons but no bone-weight data; a mesh without polygons returns without
error; and when the layout declares no blend channel at all, the assembly
result does not depend on whether weights are present, so their absence
never aborts the export. -/
theorem c8_blend_weights_requirement :
    (∀ (layout : List FmtElem) (e : FmtElem), e ∈ layout →
      (e.semantic = .blendweight ∨ e.semantic = .blendindices) →
      e.perVertex = true → e.reusedOffset = false →
      blenderToMigotoVertices layout true none = .error missingWeightsMsg) ∧
    (∀ (layout : List FmtElem),
      blenderToMigotoVertices layout false none = .ok []) ∧
    (∀ (layout : List FmtElem) (hasPolygons : Bool) (w : List (ℕ × ℤ)),
      (∀ e ∈ layout, e.semantic ≠ .blendweight ∧ e.semantic ≠ .blendindices) →
      blenderToMigotoVertices layout hasPolygons none
        = blenderToMigotoVertices layout hasPolygons (some w)) := by
  refine ⟨?_, ?_, ?_⟩
  · intro layout e hmem hsem hp hr
    have hb : e.isBlend = true := by
      rcases hsem with h | h <;> simp [FmtElem.isBlend, h]
    unfold blenderToMigotoVertices
    simp only [Bool.not_true, Bool.false_eq_true, if_false]
    exact assembleElems_error_of_blend none rfl layout [] e hmem hb hp hr
  · intro layout
    simp [blenderToMigotoVertices]
  · intro layout hasPolygons w hnb
    unfold blenderToMigotoVertices
    cases hasPolygons with
    | false => simp
    | true =>
      simp only [Bool.not_true, Bool.false_eq_true, if_false]
      refine assembleElems_weights_irrelevant w layout [] ?_
      intro e he
      obtain ⟨h1, h2⟩ := hnb e he
      cases hsem : e.semantic <;> simp [FmtElem.isBlend, hsem] <;> simp_all

/-- Witness for `c8_blend_weights_requirement` on concrete layouts. -/
theorem c8_blend_weights_requirement_witness :
    blenderToMigotoVertices [⟨.blendweight, true, false⟩] true none
      = .error missingWeightsMsg ∧
    blenderToMigotoVertices [⟨.position, true, false⟩] true none
      = blenderToMigotoVertices [⟨.position, true, false⟩] true (some [(0, 1)]) :=
  ⟨c8_blend_weights_requirement.1 [⟨.blendweight, true, false⟩]
      ⟨.blendweight, true, false⟩ (by simp) (Or.inl rfl) rfl rfl,
   c8_blend_weights_requirement.2.2 [⟨.position, true, false⟩] true [(0, 1)]
      (by intro e he; simp at he; subst he; simp)⟩

theorem norm3_nonneg (v : Vec3) : 0 ≤ norm3 v := Real.sqrt_nonneg _

theorem norm3_zero : norm3 ((0 : ℝ), (0 : ℝ), (0 : ℝ)) = 0 := by
  show Real.sqrt ((0 : ℝ) ^ 2 + (0 : ℝ) ^ 2 + (0 : ℝ) ^ 2) = 0
  norm_num

theorem unitVector_zero_of_norm (v : Vec3) (h : norm3 v = 0) :
    unitVector v = (0, 0, 0) := by
  simp [unitVector, h]

theorem norm3_unitVector (v : Vec3) (h : norm3 v ≠ 0) :
    norm3 (unitVector v) = 1 := by
  have hs : 0 ≤ v.1 ^ 2 + v.2.1 ^ 2 + v.2.2 ^ 2 := by positivity
  have hsq : norm3 v ^ 2 = v.1 ^ 2 + v.2.1 ^ 2 + v.2.2 ^ 2 := Real.sq_sqrt hs
  have hne : norm3 v ^ 2 ≠ 0 := pow_ne_zero 2 h
  unfold unitVector
  rw [if_neg h]
  show Real.sqrt ((v.1 / norm3 v) ^ 2 + (v.2.1 / norm3 v) ^ 2 + (v.2.2 / norm3 v) ^ 2) = 1
  have hdiv : (v.1 / norm3 v) ^ 2 + (v.2.1 / norm3 v) ^ 2 + (v.2.2 / norm3 v) ^ 2
      = (v.1 ^ 2 + v.2.1 ^ 2 + v.2.2 ^ 2) / norm3 v ^ 2 := by
    field_simp
  rw [hdiv, ← hsq, div_self hne, Real.sqrt_one]

theorem norm3_unitVector_of_ne {v : Vec3} (h : unitVector v ≠ (0, 0, 0)) :
    norm3 (unitVector v) = 1 := by
  by_cases h0 : norm3 v = 0
  · exact absurd (unitVector_zero_of_norm v h0) h
  · exact norm3_unitVector v h0

/-- Claim C9: `unit_vector` is total; when the input's norm is zero the
guarded division (`where=a != 0` with a zero default output) returns the
zero vector rather than a division-by-zero result. -/
theorem c9_unit_vector_total (v : Vec3) (h : norm3 v = 0) :
    unitVector v = (0, 0, 0) := by
  simp [unitVector, h]

/-- Witness for `c9_unit_vector_total` at the zero vector. -/
theorem c9_unit_vector_total_witness :
    norm3 ((0 : ℝ), (0 : ℝ), (0 : ℝ)) = 0 ∧
      unitVector ((0 : ℝ), (0 : ℝ), (0 : ℝ)) = (0, 0, 0) :=
  ⟨norm3_zero, c9_unit_vector_total ((0 : ℝ), (0 : ℝ), (0 : ℝ)) norm3_zero⟩

theorem outlineSetdefault_mem {m : List (ℕ × Vec3)} {k : ℕ} {v : Vec3}
    {q : ℕ × Vec3} (h : q ∈ outlineSetdefault m k v) : q ∈ m ∨ q.2 = v := by
  unfold outlineSetdefault at h
  split at h
  · exact Or.inl h
  · rcases List.mem_append.mp h with h2 | h2
    · exact Or.inl h2
    · simp at h2
      right
      rw [h2]

theorem foldl_outlineSetdefault_mem {w : Vec3} :
    ∀ (members : List ℕ) {m : List (ℕ × Vec3)} {q : ℕ × Vec3},
      q ∈ members.foldl (fun m x => outlineSetdefault m x w) m → q ∈ m ∨ q.2 = w := by
  intro members
  induction members with
  | nil =>
    intro m q h
    exact Or.inl h
  | cons a tl ih =>
    intro m q h
    rcases ih h with h2 | h2
    · exact outlineSetdefault_mem h2
    · exact Or.inr h2

theorem processGroup_mem {p : OutlineParams} {st : OutlineState} {g : OGroup}
    {q : ℕ × Vec3} (h : q ∈ (processGroup p st g).export_outline) :
    q ∈ st.export_outline ∨ norm3 q.2 = 1 := by
  unfold processGroup at h
  split at h
  · exact Or.inl h
  · split at h
    · exact Or.inl h
    · split at h
      · exact Or.inl h
      · split at h
        · rename_i hwne
          split at h
          · rcases outlineSetdefault_mem h with h2 | h2
            · exact Or.inl h2
            · right
              rw [h2]
              exact norm3_unitVector_of_ne hwne
          · rcases foldl_outlineSetdefault_mem g.members h with h2 | h2
            · exact Or.inl h2
            · right
              rw [h2]
              exact norm3_unitVector_of_ne hwne
        · exact Or.inl h

/-- Claim C5: every override direction present in the map returned by the
outline optimizer has unit length, for every flag combination; and a group
whose accumulated weighted normal sum is the zero vector contributes no
entry (the loop body leaves the state untouched), leaving the original
per-corner normal in use for its vertices. -/
theorem c5_outline_overrides_unit (p : OutlineParams) (groups : List OGroup) :
    (∀ (k : ℕ) (v : Vec3), (k, v) ∈ optimizedOutlineGeneration p groups → norm3 v = 1) ∧
    (∀ (st : OutlineState) (g : OGroup),
      sumV (g.faces.map (faceContribution p.angleWeighted p.pos g.members)) = (0, 0, 0) →
      processGroup p st g = st) := by
  constructor
  · have key : ∀ (gs : List OGroup) (st : OutlineState),
        (∀ q ∈ st.export_outline, norm3 q.2 = 1) →
        ∀ q ∈ (gs.foldl (processGroup p) st).export_outline, norm3 q.2 = 1 := by
      intro gs
      induction gs with
      | nil =>
        intro st hst q hq
        exact hst q hq
      | cons g tl ih =>
        intro st hst q hq
        refine ih (processGroup p st g) ?_ q hq
        intro r hr
        rcases processGroup_mem hr with h2 | h2
        · exact hst r h2
        · exact h2
    intro k v hmem
    exact key groups ⟨[], []⟩ (by intro q hq; simp at hq) (k, v) hmem
  · intro st g hsum
    have hz : groupWSum p g = (0, 0, 0) := by
      unfold groupWSum
      rw [hsum]
      exact unitVector_zero_of_norm _ norm3_zero
    unfold processGroup
    split
    · rfl
    · split
      · rfl
      · split
        · rfl
        · rw [if_neg (by simp [hz])]

/-- Witness for `c5_outline_overrides_unit`: two coincident vertices 0 and 1
with a single connected face of normal `(0,0,1)` receive the unit override
`(0,0,1)`, and a group with no connected faces (zero sum) changes nothing. -/
theorem c5_outline_overrides_unit_witness :
    (0, ((0 : ℝ), (0 : ℝ), (1 : ℝ))) ∈ optimizedOutlineGeneration outlineParamsW [oGroupW] ∧
    norm3 ((0 : ℝ), (0 : ℝ), (1 : ℝ)) = 1 ∧
    processGroup outlineParamsW ⟨[], []⟩ ⟨0, [0], []⟩ = ⟨[], []⟩ := by
  have hn1 : norm3 ((0 : ℝ), (0 : ℝ), (1 : ℝ)) = 1 := by
    show Real.sqrt ((0 : ℝ) ^ 2 + (0 : ℝ) ^ 2 + (1 : ℝ) ^ 2) = 1
    norm_num
  have hu : unitVector ((0 : ℝ), (0 : ℝ), (1 : ℝ)) = ((0 : ℝ), (0 : ℝ), (1 : ℝ)) := by
    unfold unitVector
    rw [if_neg (by rw [hn1]; norm_num)]
    rw [hn1]
    norm_num
  have hsum : sumV (oGroupW.faces.map
      (faceContribution outlineParamsW.angleWeighted outlineParamsW.pos oGroupW.members))
      = ((0 : ℝ), (0 : ℝ), (1 : ℝ)) := by
    simp only [oGroupW, outlineParamsW, List.map_cons, List.map_nil]
    simp [sumV, addV, faceContribution]
  have hw : groupWSum outlineParamsW oGroupW = ((0 : ℝ), (0 : ℝ), (1 : ℝ)) := by
    unfold groupWSum
    rw [hsum, hu]
  have hrun : optimizedOutlineGeneration outlineParamsW [oGroupW]
      = [(0, ((0 : ℝ), (0 : ℝ), (1 : ℝ))), (1, ((0 : ℝ), (0 : ℝ), (1 : ℝ)))] := by
    unfold optimizedOutlineGeneration
    rw [List.foldl_cons, List.foldl_nil]
    unfold processGroup
    rw [if_neg (by simp [oGroupW]), if_neg (by simp [outlineParamsW, oGroupW]),
      if_neg (by simp [outlineParamsW]),
      if_pos (by rw [hw]; simp),
      if_neg (by simp [outlineParamsW])]
    rw [hw]
    simp [oGroupW, outlineSetdefault]
  refine ⟨by rw [hrun]; simp, ?_, ?_⟩
  · exact (c5_outline_overrides_unit outlineParamsW [oGroupW]).1 0 _ (by rw [hrun]; simp)
  · exact (c5_outline_overrides_unit outlineParamsW [⟨0, [0], []⟩]).2 ⟨[], []⟩ ⟨0, [0], []⟩
      (by simp [sumV])

/-- Claim C6, code-bug evaluation: for a face whose corners include `n = 2`
members of the position group, the spec (and the code's evident intent, the
discarded `numpy.multiply(..., 0.5 ** (1 - n))` at lines 452-455) scales
the face normal by `0.5^(1-2) = 2`, but the source's accumulated row is the
raw face normal: contribution `(0,0,1)` versus claimed `(0,0,2)`. -/
theorem c6_influence_discount_discarded_eval :
    faceContribution false (fun _ => ((0 : ℝ), (0 : ℝ), (0 : ℝ))) [0, 1]
        ⟨[0, 1, 2], (0, 0, 1)⟩ = ((0 : ℝ), (0 : ℝ), (1 : ℝ)) ∧
    faceContributionSpec false (fun _ => ((0 : ℝ), (0 : ℝ), (0 : ℝ))) [0, 1]
        ⟨[0, 1, 2], (0, 0, 1)⟩ = ((0 : ℝ), (0 : ℝ), (2 : ℝ)) ∧
    faceContribution false (fun _ => ((0 : ℝ), (0 : ℝ), (0 : ℝ))) [0, 1]
        ⟨[0, 1, 2], (0, 0, 1)⟩
      ≠ faceContributionSpec false (fun _ => ((0 : ℝ), (0 : ℝ), (0 : ℝ))) [0, 1]
        ⟨[0, 1, 2], (0, 0, 1)⟩ := by
  have hcount : groupFaceCount [0, 1] ⟨[0, 1, 2], (0, 0, 1)⟩ = 2 := by decide
  have h1 : faceContribution false (fun _ => ((0 : ℝ), (0 : ℝ), (0 : ℝ))) [0, 1]
      ⟨[0, 1, 2], (0, 0, 1)⟩ = ((0 : ℝ), (0 : ℝ), (1 : ℝ)) := by
    simp [faceContribution]
  have h2 : faceContributionSpec false (fun _ => ((0 : ℝ), (0 : ℝ), (0 : ℝ))) [0, 1]
      ⟨[0, 1, 2], (0, 0, 1)⟩ = ((0 : ℝ), (0 : ℝ), (2 : ℝ)) := by
    unfold faceContributionSpec specBase
    rw [hcount]
    norm_num [smulV]
  refine ⟨h1, h2, ?_⟩
  rw [h1, h2]
  simp [Prod.ext_iff]

/-- Claim C7, counterexample: when the tolerance-box search yields exactly
one candidate (`closest_group = {1}`), whose position truly lies within the
box around the group `{0}`, the claim says the group merges that neighbour
into its `Same_Vertex` sets — but the source's merge (and RepositionLocal
marking) sit inside the `len(closest_group) != 1` branch (lines 383-398),
so with exactly one candidate nothing is changed at all. -/
theorem c7_single_candidate_counterexample :
    ([1] : List ℕ).length = 1 ∧
    (1 : ℕ) ∉ ([0] : List ℕ) ∧
    inBox 1 (posW7 0) (posW7 1) ∧
    (edgeSearchUpdate 1 posW7 [0] [1] edgeStateW).sameVertex 0 = [] := by
  refine ⟨rfl, by decide, ?_, ?_⟩
  · norm_num [inBox, posW7]
  · simp [edgeSearchUpdate, edgeStateW]

/-- Claim C7 (amended): when the tolerance-box search yields exactly one
found vertex, the group is left untouched; when it yields zero or more than
one, every member of the group is marked for local-only repositioning (so
it later receives its own computed normal without broadcasting it, lines
474-477) AND every found vertex outside the group whose position truly lies
within the box is merged into every member's `Same_Vertex` set, while
non-members' sets are unchanged. -/
theorem c7_edge_merge_amended (ned : ℚ) (pos : ℕ → ℚ × ℚ × ℚ)
    (vg cg : List ℕ) (st : EdgeDetectState) :
    (cg.length = 1 → edgeSearchUpdate ned pos vg cg st = st) ∧
    (cg.length ≠ 1 →
      (∀ x ∈ vg, x ∈ (edgeSearchUpdate ned pos vg cg st).repositionLocal) ∧
      (∀ v ∈ cg, v ∉ vg → inBox ned (pos (vg.headD 0)) (pos v) →
        ∀ x ∈ vg, v ∈ (edgeSearchUpdate ned pos vg cg st).sameVertex x) ∧
      (∀ x : ℕ, x ∉ vg →
        (edgeSearchUpdate ned pos vg cg st).sameVertex x = st.sameVertex x)) := by
  constructor
  · intro h
    unfold edgeSearchUpdate
    rw [if_neg (by omega)]
  · intro h
    unfold edgeSearchUpdate
    rw [if_pos h]
    refine ⟨?_, ?_, ?_⟩
    · intro x hx
      simp [hx]
    · intro v hv hnv hbox x hx
      simp only
      rw [if_pos hx]
      refine List.mem_append.mpr (Or.inr ?_)
      refine List.mem_filter.mpr ⟨hv, ?_⟩
      rw [Bool.and_eq_true, decide_eq_true_eq, decide_eq_true_eq]
      exact ⟨hnv, hbox⟩
    · intro x hx
      simp only
      rw [if_neg hx]

/-- Witness for `c7_edge_merge_amended`: a singleton search result leaves
the state unchanged; a two-element search result marks the group and merges
the in-box outsider. -/
theorem c7_edge_merge_amended_witness :
    edgeSearchUpdate 1 posW7 [0] [1] edgeStateW = edgeStateW ∧
    (0 : ℕ) ∈ (edgeSearchUpdate 1 posW7 [0] [1, 2] edgeStateW).repositionLocal ∧
    (1 : ℕ) ∈ (edgeSearchUpdate 1 posW7 [0] [1, 2] edgeStateW).sameVertex 0 := by
  refine ⟨(c7_edge_merge_amended 1 posW7 [0] [1] edgeStateW).1 rfl, ?_, ?_⟩
  · exact ((c7_edge_merge_amended 1 posW7 [0] [1, 2] edgeStateW).2 (by decide)).1
      0 (by decide)
  · exact ((c7_edge_merge_amended 1 posW7 [0] [1, 2] edgeStateW).2 (by decide)).2.1
      1 (by decide) (by decide) (by norm_num [inBox, posW7]) 0 (by decide)

/-- Claim C10: `ModExporter.optimize_outlines` rewrites only the first
three TANGENT components of the position buffer: every other field, the
buffer's length and the record order are unchanged, and with the
optimization disabled or an empty buffer the buffer is returned entirely
unchanged. -/
theorem c10_optimize_outlines_frame (enabled : Bool) (buf : List PosRecord) :
    ((enabled = false ∨ buf = []) → optimizeOutlines enabled buf = buf) ∧
    (optimizeOutlines enabled buf).length = buf.length ∧
    (∀ i : ℕ, i < buf.length →
      ((optimizeOutlines enabled buf).getD i default).position
          = (buf.getD i default).position ∧
      ((optimizeOutlines enabled buf).getD i default).normal
          = (buf.getD i default).normal ∧
      ((optimizeOutlines enabled buf).getD i default).normalW
          = (buf.getD i default).normalW ∧
      ((optimizeOutlines enabled buf).getD i default).tangentW
          = (buf.getD i default).tangentW ∧
      ((optimizeOutlines enabled buf).getD i default).rest
          = (buf.getD i default).rest) := by
  have hcases : optimizeOutlines enabled buf = buf ∨
      optimizeOutlines enabled buf
        = buf.map (fun r => { r with tangent := optimizeOutlinesTangent buf r }) := by
    unfold optimizeOutlines
    split
    · exact Or.inl rfl
    · split
      · exact Or.inl rfl
      · exact Or.inr rfl
  have hget : ∀ i : ℕ, i < buf.length →
      (buf.map (fun r => { r with tangent := optimizeOutlinesTangent buf r })).getD i default
        = { buf.getD i default with
            tangent := optimizeOutlinesTangent buf (buf.getD i default) } := by
    intro i hi
    rw [List.getD_eq_getElem?_getD, List.getElem?_map, List.getElem?_eq_getElem hi,
      List.getD_eq_getElem?_getD, List.getElem?_eq_getElem hi]
    rfl
  refine ⟨?_, ?_, ?_⟩
  · rintro (h | h) <;> subst h <;> simp [optimizeOutlines]
  · rcases hcases with h | h
    · rw [h]
    · rw [h, List.length_map]
  · intro i hi
    rcases hcases with h | h
    · rw [h]
      exact ⟨rfl, rfl, rfl, rfl, rfl⟩
    · rw [h, hget i hi]
      exact ⟨rfl, rfl, rfl, rfl, rfl⟩

/-- Witness for `c10_optimize_outlines_frame` on a one-record buffer. -/
theorem c10_optimize_outlines_frame_witness :
    optimizeOutlines false [posRecordW] = [posRecordW] ∧
    ((optimizeOutlines true [posRecordW]).getD 0 default).normal = posRecordW.normal := by
  constructor
  · exact (c10_optimize_outlines_frame false [posRecordW]).1 (Or.inl rfl)
  · have h := ((c10_optimize_outlines_frame true [posRecordW]).2.2 0 (by simp)).2.1
    rw [h]
    rfl
